import Mathlib

/-!
Shallow embedding of the `twopoint` crate: an encrypted UDP point-to-point
messaging library.  Byte sequences are `List Nat` with each element a byte
value; machine integers that matter are reduced modulo 256 explicitly.

The crate's own code (`src/crypto.rs`, `src/key.rs`, `src/error.rs`,
`src/util.rs`, `src/peer.rs`) is embedded directly.  External collaborators
(the AES-128-GCM cipher from the `aes_gcm` crate, the ChaCha8 CSPRNG from
`rand_chacha`, the OS UDP socket, and the `hex` decoder) are modelled from
the spec's description of their contracts; each such definition carries a
`Modelled from the spec:` doc comment.
-/

namespace Twopoint

/-- `CryptoError` from `src/error.rs`: opaque unit-like error for
encryption and decryption failures. -/
structure CryptoError where
deriving DecidableEq, Repr

/-- `hex::FromHexError` as used by `src/key.rs` (external `hex` crate,
modelled from its documented behaviour referenced by the spec):
either an invalid character (with its index) or an odd input length. -/
inductive FromHexError where
  | invalidHexCharacter (c : Char) (index : Nat)
  | oddLength
deriving DecidableEq, Repr

/-- `InvalidKeyError` from `src/error.rs`. -/
inductive InvalidKeyError where
  | invalidLength
  | invalidHex (e : FromHexError)
deriving DecidableEq, Repr

/-- `Key` from `src/key.rs`: wraps a 16-byte array.  The embedding stores
the bytes as a list; well-formed keys have length 16. -/
structure Key where
  data : List Nat
deriving DecidableEq, Repr

/-- `impl TryFrom<&[u8]> for Key` from `src/key.rs`: succeeds exactly when
the slice has length 16, otherwise `InvalidKeyError::InvalidLength`. -/
def Key.try_from (slice : List Nat) : Except InvalidKeyError Key :=
  if slice.length = 16 then Except.ok ⟨slice⟩
  else Except.error InvalidKeyError.invalidLength

/-- Modelled from the spec: value of a single hexadecimal digit as in the
`hex` crate (`0`-`9`, `a`-`f`, `A`-`F`), `none` for a non-hex character. -/
def hexVal (c : Char) : Option Nat :=
  if 48 ≤ c.toNat ∧ c.toNat ≤ 57 then some (c.toNat - 48)
  else if 97 ≤ c.toNat ∧ c.toNat ≤ 102 then some (c.toNat - 87)
  else if 65 ≤ c.toNat ∧ c.toNat ≤ 70 then some (c.toNat - 55)
  else none

/-- Modelled from the spec: the pair-at-a-time decoding loop of
`hex::decode`, reporting the index of the first invalid character. -/
def hexDecodeAux : List Char → Nat → Except FromHexError (List Nat)
  | [], _ => Except.ok []
  | [_], _ => Except.error FromHexError.oddLength
  | c1 :: c2 :: rest, idx =>
    match hexVal c1 with
    | none => Except.error (FromHexError.invalidHexCharacter c1 idx)
    | some hi =>
      match hexVal c2 with
      | none => Except.error (FromHexError.invalidHexCharacter c2 (idx + 1))
      | some lo =>
        match hexDecodeAux rest (idx + 2) with
        | Except.error e => Except.error e
        | Except.ok bytes => Except.ok ((hi * 16 + lo) :: bytes)

/-- Modelled from the spec: `hex::decode`, which first rejects inputs of
odd length with `OddLength` and then decodes character pairs. -/
def hexDecode (s : List Char) : Except FromHexError (List Nat) :=
  if s.length % 2 ≠ 0 then Except.error FromHexError.oddLength
  else hexDecodeAux s 0

/-- `impl FromStr for Key` from `src/key.rs`:
`Self::try_from(hex::decode(s)?.as_ref())`, with the `?` converting a
`FromHexError` into `InvalidKeyError::InvalidHex`. -/
def Key.from_str (s : List Char) : Except InvalidKeyError Key :=
  match hexDecode s with
  | Except.error e => Except.error (InvalidKeyError.invalidHex e)
  | Except.ok bytes => Key.try_from bytes

/-- `std::io::ErrorKind`, restricted to the kinds the crate inspects plus
representatives of the remaining kinds. -/
inductive ErrorKind where
  | wouldBlock
  | timedOut
  | interrupted
  | connectionReset
  | connectionAborted
  | connectionRefused
  | notConnected
  | networkDown
  | addrInUse
  | addrNotAvailable
  | hostUnreachable
  | networkUnreachable
  | brokenPipe
  | unexpectedEof
  | invalidInput
  | notFound
  | permissionDenied
  | other
deriving DecidableEq, Repr

/-- `std::io::Error`, reduced to its kind, which is all the crate's
classification code inspects. -/
structure IoError where
  kind : ErrorKind
deriving DecidableEq, Repr

/-- `can_retry` from `src/util.rs`. -/
def can_retry (e : IoError) : Bool :=
  match e.kind with
  | ErrorKind.wouldBlock => true
  | ErrorKind.timedOut => true
  | ErrorKind.interrupted => true
  | _ => false

/-- `can_reconnect` from `src/util.rs`: first defers to `can_retry`,
then matches the connection-related kinds. -/
def can_reconnect (e : IoError) : Bool :=
  if can_retry e then true
  else
    match e.kind with
    | ErrorKind.connectionReset => true
    | ErrorKind.connectionAborted => true
    | ErrorKind.connectionRefused => true
    | ErrorKind.notConnected => true
    | ErrorKind.networkDown => true
    | ErrorKind.addrInUse => true
    | ErrorKind.addrNotAvailable => true
    | ErrorKind.hostUnreachable => true
    | ErrorKind.networkUnreachable => true
    | ErrorKind.brokenPipe => true
    | ErrorKind.unexpectedEof => true
    | _ => false

/-- `impl From<CryptoError> for io::Error` from `src/error.rs`:
`io::Error::new(io::ErrorKind::Other, CryptoError)`. -/
def cryptoErrorToIoError (_ : CryptoError) : IoError :=
  ⟨ErrorKind.other⟩

/-- `impl From<InvalidKeyError> for io::Error` from `src/error.rs`:
`io::Error::new(io::ErrorKind::InvalidInput, e)`. -/
def invalidKeyErrorToIoError (_ : InvalidKeyError) : IoError :=
  ⟨ErrorKind.invalidInput⟩

/-- `Crypto::TAG_SIZE` from `src/crypto.rs`. -/
def TAG_SIZE : Nat := 16

/-- `Crypto::NONCE_SIZE` from `src/crypto.rs`. -/
def NONCE_SIZE : Nat := 12

/-- `Crypto::MINIMUM_BUFFER_LENGTH` from `src/crypto.rs`. -/
def MINIMUM_BUFFER_LENGTH : Nat := TAG_SIZE + NONCE_SIZE

/-- Modelled from the spec: `ChaCha8Rng::from_os_rng` seeds a fresh random
source from OS entropy; the CSPRNG state is abstracted as a natural number
and seeding as taking the entropy value itself. -/
def fromOsRng (entropy : Nat) : Nat := entropy

/-- Modelled from the spec: the 12 random nonce bytes drawn from the
CSPRNG by `Aes128Gcm::generate_nonce_with_rng`, as a deterministic
function of the CSPRNG state. -/
def genNonceBytes (state : Nat) : List Nat :=
  (List.range NONCE_SIZE).map (fun i => (state + i) % 256)

/-- Modelled from the spec: one keystream byte of the AEAD cipher,
a deterministic function of key, nonce and position. -/
def ksByte (key nonce : List Nat) (i : Nat) : Nat :=
  (key.getD (i % 16) 0 + nonce.getD (i % 12) 0 + i) % 256

/-- Modelled from the spec: the cipher's stream transform — each byte of
the input is XORed with the keystream byte at its position.  Applying it
twice with the same key and nonce restores the input, and the output has
the input's length (spec: "ciphertext of the same length"). -/
def streamXor (key nonce : List Nat) : Nat → List Nat → List Nat
  | _, [] => []
  | i, x :: xs => (x ^^^ ksByte key nonce i) :: streamXor key nonce (i + 1) xs

/-- XOR of the bytes of `l` whose absolute position (starting at `i`) is
congruent to `j` modulo 16.  Helper for the authentication tag model. -/
def classXorAux : List Nat → Nat → Nat → Nat
  | [], _, _ => 0
  | x :: xs, i, j => (if i % 16 = j then x else 0) ^^^ classXorAux xs (i + 1) j

/-- Modelled from the spec: the 16-byte authentication tag produced by the
AEAD over the ciphertext with the given key and nonce.  Byte `j` mixes the
ciphertext bytes at positions congruent to `j` mod 16 with nonce byte `j`
and key byte `j`, so any single-bit change of ciphertext, nonce or key
byte changes the tag (spec: tamper detection). -/
def tagBytes (key nonce ct : List Nat) : List Nat :=
  (List.range TAG_SIZE).map
    (fun j => classXorAux ct 0 j ^^^ nonce.getD j 0 ^^^ key.getD j 0)

/-- `Crypto` from `src/crypto.rs`: the key-derived cipher context (a pure
function of the key, embedded as the key bytes themselves) and the
CSPRNG state. -/
structure Crypto where
  cipher : List Nat
  csprng : Nat
deriving DecidableEq, Repr

/-- `Crypto::new` from `src/crypto.rs`: derives the cipher context from
the key and seeds the CSPRNG from OS entropy (the entropy the OS supplies
is passed explicitly). -/
def Crypto.new (key : Key) (entropy : Nat) : Crypto :=
  ⟨key.data, fromOsRng entropy⟩

/-- `Crypto::encrypt` from `src/crypto.rs`: generate a nonce from the
CSPRNG (advancing it), encrypt the buffer in place appending the 16-byte
tag, then append the 12-byte nonce.  Returns the result, the new buffer
contents, and the engine with its advanced CSPRNG state. -/
def Crypto.encrypt (c : Crypto) (buffer : List Nat) :
    Except CryptoError Unit × List Nat × Crypto :=
  let nonce := genNonceBytes c.csprng
  let ct := streamXor c.cipher nonce 0 buffer
  (Except.ok (), ct ++ tagBytes c.cipher nonce ct ++ nonce,
    ⟨c.cipher, c.csprng + 1⟩)

/-- `Crypto::decrypt` from `src/crypto.rs`: reject buffers shorter than
`MINIMUM_BUFFER_LENGTH` before touching the cipher; otherwise split off
the trailing 12-byte nonce, truncate, and run authenticated decryption on
the remaining `ciphertext || tag`.  Returns the result and the buffer
contents after the call (unchanged on the short-buffer path; the
ciphertext-with-tag remainder on authentication failure, matching the
spec's "unspecified (already-mutated) state"). -/
def Crypto.decrypt (c : Crypto) (buffer : List Nat) :
    Except CryptoError Unit × List Nat :=
  let len := buffer.length
  if len < MINIMUM_BUFFER_LENGTH then (Except.error ⟨⟩, buffer)
  else
    let nonce := buffer.drop (len - NONCE_SIZE)
    let body := buffer.take (len - NONCE_SIZE)
    let ct := body.take (body.length - TAG_SIZE)
    let tg := body.drop (body.length - TAG_SIZE)
    if tagBytes c.cipher nonce ct = tg
    then (Except.ok (), streamXor c.cipher nonce 0 ct)
    else (Except.error ⟨⟩, body)

/-- `impl Clone for Crypto` from `src/crypto.rs`: copy the cipher context,
seed a fresh CSPRNG from OS entropy. -/
def Crypto.clone (c : Crypto) (entropy : Nat) : Crypto :=
  ⟨c.cipher, fromOsRng entropy⟩

/-- Flip bit `b` of the byte at position `i` of a buffer. -/
def flipBit (l : List Nat) (i b : Nat) : List Nat :=
  l.set i (l.getD i 0 ^^^ 2 ^ b)

/-- `std::net::SocketAddr`: an IPv4 or IPv6 address (the IP packed into a
natural number) with a port. -/
inductive SocketAddr where
  | v4 (ip : Nat) (port : Nat)
  | v6 (ip : Nat) (port : Nat)
deriving DecidableEq, Repr

/-- `to_unspecified` from `src/util.rs`: the all-zeros address, port 0, of
the same IP version as the input. -/
def to_unspecified : SocketAddr → SocketAddr
  | SocketAddr.v4 _ _ => SocketAddr.v4 0 0
  | SocketAddr.v6 _ _ => SocketAddr.v6 0 0

/-- `is_unspecified` from `src/util.rs`: true when the IP part is
all-zeros (`0.0.0.0` or `::`); the port is not inspected. -/
def is_unspecified : SocketAddr → Bool
  | SocketAddr.v4 ip _ => ip == 0
  | SocketAddr.v6 ip _ => ip == 0

/-- Modelled from the spec: the OS UDP socket, reduced to the state the
peer logic observes — the bound local address and the connection filter
(`none` when the socket was never connected). -/
structure UdpSocket where
  localAddr : SocketAddr
  filter : Option SocketAddr
deriving DecidableEq, Repr

/-- Modelled from the spec: `UdpSocket::connect` sets the connection
filter, a purely local operation on a connectionless transport. -/
def UdpSocket.connect (s : UdpSocket) (addr : SocketAddr) : UdpSocket :=
  ⟨s.localAddr, some addr⟩

/-- Modelled from the spec: `UdpSocket::peer_addr` reports the connection
filter's address, or fails with a not-connected error when the socket was
never connected. -/
def UdpSocket.peer_addr (s : UdpSocket) : Except IoError SocketAddr :=
  match s.filter with
  | some addr => Except.ok addr
  | none => Except.error ⟨ErrorKind.notConnected⟩

/-- `Peer` from `src/peer.rs`: a UDP socket paired with a crypto engine. -/
structure Peer where
  socket : UdpSocket
  crypto : Crypto
deriving DecidableEq, Repr

/-- `Peer::new` from `src/peer.rs` (OS entropy for the fresh engine passed
explicitly). -/
def Peer.new (socket : UdpSocket) (key : Key) (entropy : Nat) : Peer :=
  ⟨socket, Crypto.new key entropy⟩

/-- `Peer::local_addr` from `src/peer.rs`. -/
def Peer.local_addr (p : Peer) : SocketAddr :=
  p.socket.localAddr

/-- `Peer::remote_addr_optional` from `src/peer.rs`: the connected remote
address, or `none` when `peer_addr` fails or reports the unspecified
sentinel address. -/
def Peer.remote_addr_optional (p : Peer) : Option SocketAddr :=
  match p.socket.peer_addr with
  | Except.ok addr => if ¬ is_unspecified addr then some addr else none
  | Except.error _ => none

/-- `Peer::remote_addr` from `src/peer.rs`. -/
def Peer.remote_addr (p : Peer) : SocketAddr :=
  (p.remote_addr_optional).getD (to_unspecified p.local_addr)

/-- `Peer::connect` from `src/peer.rs`: delegates to the socket. -/
def Peer.connect (p : Peer) (addr : SocketAddr) : Peer :=
  ⟨p.socket.connect addr, p.crypto⟩

/-- `Peer::disconnect` from `src/peer.rs`: re-applies `connect` with the
unspecified address of the local address's family. -/
def Peer.disconnect (p : Peer) : Peer :=
  p.connect (to_unspecified p.local_addr)

/-- `impl Clone for Peer` from `src/peer.rs`: duplicate the OS socket
handle (same observable socket state) and clone the crypto engine, which
reseeds the CSPRNG from OS entropy. -/
def Peer.clone (p : Peer) (entropy : Nat) : Peer :=
  ⟨p.socket, p.crypto.clone entropy⟩

/-! ### Helper lemmas about the cipher model -/

theorem streamXor_length (key nonce : List Nat) (i : Nat) (l : List Nat) :
    (streamXor key nonce i l).length = l.length := by
  induction l generalizing i with
  | nil => rfl
  | cons x xs ih => simp [streamXor, ih]

theorem streamXor_streamXor (key nonce : List Nat) (i : Nat) (l : List Nat) :
    streamXor key nonce i (streamXor key nonce i l) = l := by
  induction l generalizing i with
  | nil => rfl
  | cons x xs ih =>
    simp [streamXor, Nat.xor_cancel_right, ih]

theorem tagBytes_length (key nonce ct : List Nat) :
    (tagBytes key nonce ct).length = 16 := by
  simp [tagBytes, TAG_SIZE]

theorem genNonceBytes_length (state : Nat) :
    (genNonceBytes state).length = 12 := by
  simp [genNonceBytes, NONCE_SIZE]

theorem xor_ne_self (a m : Nat) (hm : m ≠ 0) : a ^^^ m ≠ a := by
  intro h
  apply hm
  have h0 : a ^^^ m = a ^^^ 0 := by rw [Nat.xor_zero]; exact h
  exact Nat.xor_right_injective h0

/-- The encrypted buffer, reassociated into `(ciphertext ++ tag) ++ nonce`
form convenient for `take`/`drop` reasoning. -/
theorem encrypt_framed (c : Crypto) (P : List Nat) :
    (c.encrypt P).2.1 =
      (streamXor c.cipher (genNonceBytes c.csprng) 0 P ++
        tagBytes c.cipher (genNonceBytes c.csprng)
          (streamXor c.cipher (genNonceBytes c.csprng) 0 P)) ++
        genNonceBytes c.csprng := by
  simp [Crypto.encrypt, List.append_assoc]

/-- Evaluation of `Crypto.decrypt` on a buffer in wire-format frame shape:
the outcome is decided by the authentication-tag comparison. -/
theorem decrypt_framed (d : Crypto) (ct tg n : List Nat)
    (htg : tg.length = 16) (hn : n.length = 12) :
    d.decrypt ((ct ++ tg) ++ n) =
      if tagBytes d.cipher n ct = tg
      then (Except.ok (), streamXor d.cipher n 0 ct)
      else (Except.error ⟨⟩, ct ++ tg) := by
  have hlen : ((ct ++ tg) ++ n).length = ct.length + 28 := by
    simp [htg, hn]
  have hbody : (ct ++ tg).length = ct.length + 28 - 12 := by
    simp [htg]
  have hdropn : ((ct ++ tg) ++ n).drop (ct.length + 28 - 12) = n :=
    List.drop_left' hbody
  have htaken : ((ct ++ tg) ++ n).take (ct.length + 28 - 12) = ct ++ tg :=
    List.take_left' hbody
  have hct' : (ct ++ tg).take ((ct ++ tg).length - 16) = ct := by
    have h : ct.length = (ct ++ tg).length - 16 := by simp [htg]
    exact List.take_left' h
  have htg' : (ct ++ tg).drop ((ct ++ tg).length - 16) = tg := by
    have h : ct.length = (ct ++ tg).length - 16 := by simp [htg]
    exact List.drop_left' h
  simp only [Crypto.decrypt, MINIMUM_BUFFER_LENGTH, TAG_SIZE, NONCE_SIZE,
    hlen]
  rw [if_neg (by omega)]
  rw [hdropn, htaken, hct', htg']

theorem xor_rotate (a b c : Nat) : (a ^^^ b) ^^^ c = (a ^^^ c) ^^^ b := by
  rw [Nat.xor_assoc, Nat.xor_assoc, Nat.xor_comm b c]

/-- XORing a single byte of the list with `m` XORs the position-class
accumulator of that byte's class with `m` and leaves the others alone. -/
theorem classXorAux_set (l : List Nat) (p i j m : Nat) (hp : p < l.length) :
    classXorAux (l.set p (l.getD p 0 ^^^ m)) i j
      = classXorAux l i j ^^^ (if (i + p) % 16 = j then m else 0) := by
  induction l generalizing p i with
  | nil => simp at hp
  | cons x xs ih =>
    cases p with
    | zero =>
      simp only [List.set_cons_zero, List.getD_cons_zero, Nat.add_zero]
      by_cases h : i % 16 = j
      · simp only [classXorAux, if_pos h]
        exact xor_rotate x m (classXorAux xs (i + 1) j)
      · simp [classXorAux, if_neg h]
    | succ q =>
      have hq : q < xs.length := by simpa using hp
      simp only [List.set_cons_succ, List.getD_cons_succ]
      simp only [classXorAux, ih q (i + 1) hq]
      have harith : (i + 1 + q) % 16 = (i + (q + 1)) % 16 := by
        have : i + 1 + q = i + (q + 1) := by omega
        rw [this]
      rw [harith, Nat.xor_assoc]

/-- Two tags differ as soon as one of the 16 entries differs. -/
theorem tagBytes_ne_of_entry (k n n' ct ct' : List Nat) (j : Nat)
    (hj : j < 16)
    (hne : classXorAux ct' 0 j ^^^ n'.getD j 0 ^^^ k.getD j 0
      ≠ classXorAux ct 0 j ^^^ n.getD j 0 ^^^ k.getD j 0) :
    tagBytes k n' ct' ≠ tagBytes k n ct := by
  intro h
  apply hne
  have h2 := congrArg (fun l => l.getD j 0) h
  simpa [tagBytes, TAG_SIZE, List.getD_eq_getElem?_getD,
    List.getElem?_range hj] using h2

/-- XORing a nonzero value into any ciphertext byte changes the tag. -/
theorem tagBytes_set_ct_ne (k n ct : List Nat) (p m : Nat)
    (hp : p < ct.length) (hm : m ≠ 0) :
    tagBytes k n (ct.set p (ct.getD p 0 ^^^ m)) ≠ tagBytes k n ct := by
  apply tagBytes_ne_of_entry k n n ct _ (p % 16)
    (Nat.mod_lt _ (by norm_num))
  rw [classXorAux_set ct p 0 (p % 16) m hp]
  simp only [Nat.zero_add, eq_self_iff_true, if_true]
  rw [xor_rotate (classXorAux ct 0 (p % 16)) m (n.getD (p % 16) 0),
    xor_rotate _ m (k.getD (p % 16) 0)]
  exact xor_ne_self _ m hm

/-- XORing a nonzero value into any nonce byte changes the tag. -/
theorem tagBytes_set_nonce_ne (k n ct : List Nat) (q m : Nat)
    (hq : q < n.length) (hq16 : q < 16) (hm : m ≠ 0) :
    tagBytes k (n.set q (n.getD q 0 ^^^ m)) ct ≠ tagBytes k n ct := by
  apply tagBytes_ne_of_entry k n _ ct ct q hq16
  have hset : (n.set q (n.getD q 0 ^^^ m)).getD q 0 = n.getD q 0 ^^^ m := by
    simp [List.getD_eq_getElem?_getD, List.getElem?_set_self hq]
  rw [hset, ← Nat.xor_assoc]
  rw [xor_rotate (classXorAux ct 0 q ^^^ n.getD q 0) m (k.getD q 0)]
  exact xor_ne_self _ m hm

/-- XORing a nonzero value into any byte changes the list. -/
theorem set_xor_ne (l : List Nat) (q m : Nat)
    (hq : q < l.length) (hm : m ≠ 0) :
    l.set q (l.getD q 0 ^^^ m) ≠ l := by
  intro h
  have h2 := congrArg (fun t => t.getD q 0) h
  simp only [List.getD_eq_getElem?_getD, List.getElem?_set_self hq,
    Option.getD_some] at h2
  have h3 : l.getD q 0 ^^^ m = l.getD q 0 := by
    simpa [List.getD_eq_getElem?_getD] using h2
  exact xor_ne_self _ m hm h3

theorem is_unspecified_to_unspecified (a : SocketAddr) :
    is_unspecified (to_unspecified a) = true := by
  cases a <;> rfl

/-! ### Claim theorems -/

/-- C1: for every plaintext byte sequence P (including the empty sequence)
and every valid 16-byte key, encrypting a buffer containing P and then
decrypting the result with an engine for the same key succeeds and leaves
the buffer containing exactly P. -/
theorem crypto_roundtrip (c d : Crypto) (P : List Nat)
    (hK : c.cipher.length = 16) (hcd : d.cipher = c.cipher) :
    (c.encrypt P).1 = Except.ok () ∧
    d.decrypt (c.encrypt P).2.1 = (Except.ok (), P) := by
  refine ⟨rfl, ?_⟩
  rw [encrypt_framed c P,
    decrypt_framed d _ _ _ (tagBytes_length _ _ _) (genNonceBytes_length _),
    hcd, if_pos rfl, streamXor_streamXor]

/-- Witness for C1 at a concrete key and plaintext. -/
theorem crypto_roundtrip_witness :
    (Crypto.encrypt ⟨List.replicate 16 0, 3⟩ [10, 20, 30]).1
      = Except.ok () ∧
    Crypto.decrypt ⟨List.replicate 16 0, 77⟩
        (Crypto.encrypt ⟨List.replicate 16 0, 3⟩ [10, 20, 30]).2.1
      = (Except.ok (), [10, 20, 30]) :=
  crypto_roundtrip ⟨List.replicate 16 0, 3⟩ ⟨List.replicate 16 0, 77⟩
    [10, 20, 30] (by simp) rfl

/-- C2: a call to `Crypto::encrypt` succeeds and replaces the buffer with
`ciphertext (plaintext length) || 16-byte tag || 12-byte nonce`, so the
final length is the plaintext length plus 28 and the last 12 bytes are the
nonce the cipher used. -/
theorem crypto_encrypt_layout (c : Crypto) (buffer : List Nat) :
    (c.encrypt buffer).1 = Except.ok () ∧
    ((c.encrypt buffer).2.1).length = buffer.length + 28 ∧
    (c.encrypt buffer).2.1
      = streamXor c.cipher (genNonceBytes c.csprng) 0 buffer
        ++ tagBytes c.cipher (genNonceBytes c.csprng)
            (streamXor c.cipher (genNonceBytes c.csprng) 0 buffer)
        ++ genNonceBytes c.csprng ∧
    (streamXor c.cipher (genNonceBytes c.csprng) 0 buffer).length
      = buffer.length ∧
    (tagBytes c.cipher (genNonceBytes c.csprng)
        (streamXor c.cipher (genNonceBytes c.csprng) 0 buffer)).length
      = TAG_SIZE ∧
    (genNonceBytes c.csprng).length = NONCE_SIZE ∧
    ((c.encrypt buffer).2.1).drop (buffer.length + TAG_SIZE)
      = genNonceBytes c.csprng := by
  refine ⟨rfl, ?_, rfl, streamXor_length _ _ _ _, tagBytes_length _ _ _,
    genNonceBytes_length _, ?_⟩
  · rw [encrypt_framed c buffer]
    simp [streamXor_length, tagBytes_length, genNonceBytes_length]
  · rw [encrypt_framed c buffer]
    apply List.drop_left'
    simp [streamXor_length, tagBytes_length, TAG_SIZE]

/-- C3: `Crypto::decrypt` on any buffer shorter than 28 bytes fails with
`CryptoError` before invoking the cipher and leaves the buffer
unchanged. -/
theorem crypto_decrypt_short (c : Crypto) (buffer : List Nat)
    (h : buffer.length < MINIMUM_BUFFER_LENGTH) :
    c.decrypt buffer = (Except.error ⟨⟩, buffer) := by
  simp [Crypto.decrypt, h]

/-- Witness for C3 at a concrete 27-byte buffer. -/
theorem crypto_decrypt_short_witness :
    (27 : Nat) < MINIMUM_BUFFER_LENGTH ∧
    Crypto.decrypt ⟨List.replicate 16 0, 0⟩ (List.replicate 27 1)
      = (Except.error ⟨⟩, List.replicate 27 1) :=
  ⟨by decide,
    crypto_decrypt_short ⟨List.replicate 16 0, 0⟩ (List.replicate 27 1)
      (by simp [MINIMUM_BUFFER_LENGTH, TAG_SIZE, NONCE_SIZE])⟩

/-- C6: `can_retry` holds exactly for would-block, timed-out and
interrupted; `can_reconnect` holds exactly for those plus the
connection-related kinds; hence `can_reconnect` covers `can_retry`. -/
theorem error_classification (e : IoError) :
    (can_retry e = true ↔
      (e.kind = ErrorKind.wouldBlock ∨ e.kind = ErrorKind.timedOut ∨
        e.kind = ErrorKind.interrupted)) ∧
    (can_reconnect e = true ↔
      (can_retry e = true ∨
        e.kind = ErrorKind.connectionReset ∨
        e.kind = ErrorKind.connectionAborted ∨
        e.kind = ErrorKind.connectionRefused ∨
        e.kind = ErrorKind.notConnected ∨
        e.kind = ErrorKind.networkDown ∨
        e.kind = ErrorKind.addrInUse ∨
        e.kind = ErrorKind.addrNotAvailable ∨
        e.kind = ErrorKind.hostUnreachable ∨
        e.kind = ErrorKind.networkUnreachable ∨
        e.kind = ErrorKind.brokenPipe ∨
        e.kind = ErrorKind.unexpectedEof)) ∧
    (can_retry e = true → can_reconnect e = true) := by
  obtain ⟨k⟩ := e
  cases k <;> decide

/-- C7: a never-connected peer reports no remote address; after
`connect(addr)` to a concrete non-unspecified address it reports `addr`;
after `disconnect()` any peer again reports no remote address. -/
theorem peer_connection_sentinel (p q : Peer) (addr : SocketAddr)
    (hfresh : p.socket.filter = none)
    (haddr : is_unspecified addr = false) :
    p.remote_addr_optional = none ∧
    (p.connect addr).remote_addr_optional = some addr ∧
    (q.disconnect).remote_addr_optional = none := by
  refine ⟨?_, ?_, ?_⟩
  · simp [Peer.remote_addr_optional, UdpSocket.peer_addr, hfresh]
  · simp [Peer.remote_addr_optional, Peer.connect, UdpSocket.connect,
      UdpSocket.peer_addr, haddr]
  · simp [Peer.disconnect, Peer.connect, Peer.remote_addr_optional,
      UdpSocket.connect, UdpSocket.peer_addr,
      is_unspecified_to_unspecified]

/-- Witness for C7 at a concrete fresh peer and concrete address. -/
theorem peer_connection_sentinel_witness :
    (Peer.remote_addr_optional
        ⟨⟨SocketAddr.v4 2130706433 4000, none⟩, ⟨List.replicate 16 0, 0⟩⟩
      = none) ∧
    (Peer.remote_addr_optional
        (Peer.connect
          ⟨⟨SocketAddr.v4 2130706433 4000, none⟩, ⟨List.replicate 16 0, 0⟩⟩
          (SocketAddr.v4 2130706434 5000))
      = some (SocketAddr.v4 2130706434 5000)) ∧
    (Peer.remote_addr_optional
        (Peer.disconnect
          ⟨⟨SocketAddr.v4 2130706433 4000, some (SocketAddr.v4 2130706434 5000)⟩,
            ⟨List.replicate 16 0, 0⟩⟩)
      = none) := by
  refine ⟨?_, ?_, ?_⟩
  · exact (peer_connection_sentinel
      ⟨⟨SocketAddr.v4 2130706433 4000, none⟩, ⟨List.replicate 16 0, 0⟩⟩
      ⟨⟨SocketAddr.v4 2130706433 4000, none⟩, ⟨List.replicate 16 0, 0⟩⟩
      (SocketAddr.v4 2130706434 5000) rfl (by decide)).1
  · exact (peer_connection_sentinel
      ⟨⟨SocketAddr.v4 2130706433 4000, none⟩, ⟨List.replicate 16 0, 0⟩⟩
      ⟨⟨SocketAddr.v4 2130706433 4000, none⟩, ⟨List.replicate 16 0, 0⟩⟩
      (SocketAddr.v4 2130706434 5000) rfl (by decide)).2.1
  · exact (peer_connection_sentinel
      ⟨⟨SocketAddr.v4 2130706433 4000, none⟩, ⟨List.replicate 16 0, 0⟩⟩
      ⟨⟨SocketAddr.v4 2130706433 4000, some (SocketAddr.v4 2130706434 5000)⟩,
        ⟨List.replicate 16 0, 0⟩⟩
      (SocketAddr.v4 2130706434 5000) rfl (by decide)).2.2

/-- C8: `Key::try_from` on a byte slice succeeds exactly when the slice
has length 16, yielding a key with those bytes, and fails with
`InvalidKeyError::InvalidLength` for every other length. -/
theorem key_try_from_spec (slice : List Nat) :
    (slice.length = 16 → Key.try_from slice = Except.ok ⟨slice⟩) ∧
    (slice.length ≠ 16 →
      Key.try_from slice = Except.error InvalidKeyError.invalidLength) := by
  constructor <;> intro h <;> simp [Key.try_from, h]

/-- Witness for C8 at a 16-byte slice and a 2-byte slice. -/
theorem key_try_from_spec_witness :
    Key.try_from (List.replicate 16 1) = Except.ok ⟨List.replicate 16 1⟩ ∧
    Key.try_from [0, 1] = Except.error InvalidKeyError.invalidLength :=
  ⟨(key_try_from_spec (List.replicate 16 1)).1 (by simp),
    (key_try_from_spec [0, 1]).2 (by decide)⟩

/-- C9: cloning a `Crypto` engine (also inside a cloned `Peer`) keeps the
key-derived cipher context but takes its CSPRNG state from fresh OS
entropy only: two originals differing only in CSPRNG state produce
identical clones under the same entropy. -/
theorem crypto_clone_fresh_rng (c1 c2 : Crypto) (p1 p2 : Peer) (e : Nat)
    (hc : c1.cipher = c2.cipher)
    (hp : p1.socket = p2.socket ∧ p1.crypto.cipher = p2.crypto.cipher) :
    Crypto.clone c1 e = Crypto.clone c2 e ∧
    (Crypto.clone c1 e).cipher = c1.cipher ∧
    (Crypto.clone c1 e).csprng = fromOsRng e ∧
    Peer.clone p1 e = Peer.clone p2 e := by
  obtain ⟨hs, hcc⟩ := hp
  simp [Crypto.clone, Peer.clone, hc, hs, hcc]

/-- Witness for C9: originals differing only in CSPRNG state clone
identically. -/
theorem crypto_clone_fresh_rng_witness :
    Crypto.clone ⟨List.replicate 16 9, 0⟩ 42
      = Crypto.clone ⟨List.replicate 16 9, 1000⟩ 42 ∧
    (Crypto.clone ⟨List.replicate 16 9, 0⟩ 42).cipher
      = List.replicate 16 9 ∧
    (Crypto.clone ⟨List.replicate 16 9, 0⟩ 42).csprng = fromOsRng 42 ∧
    Peer.clone ⟨⟨SocketAddr.v4 1 2, none⟩, ⟨List.replicate 16 9, 0⟩⟩ 42
      = Peer.clone ⟨⟨SocketAddr.v4 1 2, none⟩, ⟨List.replicate 16 9, 1000⟩⟩ 42 :=
  crypto_clone_fresh_rng ⟨List.replicate 16 9, 0⟩ ⟨List.replicate 16 9, 1000⟩
    ⟨⟨SocketAddr.v4 1 2, none⟩, ⟨List.replicate 16 9, 0⟩⟩
    ⟨⟨SocketAddr.v4 1 2, none⟩, ⟨List.replicate 16 9, 1000⟩⟩
    42 rfl ⟨rfl, rfl⟩

/-- C10: a `CryptoError` carried into the I/O error domain has kind
`Other`, for which neither `can_retry` nor `can_reconnect` holds. -/
theorem crypto_error_not_retryable (er : CryptoError) :
    (cryptoErrorToIoError er).kind = ErrorKind.other ∧
    can_retry (cryptoErrorToIoError er) = false ∧
    can_reconnect (cryptoErrorToIoError er) = false := by
  obtain ⟨⟩ := er
  decide

/-- If the pairwise hex decoding loop succeeds, every input character is a
valid hex digit. -/
theorem hexDecodeAux_ok_no_bad (l : List Char) (idx : Nat) (bytes : List Nat)
    (h : hexDecodeAux l idx = Except.ok bytes) :
    ∀ c ∈ l, hexVal c ≠ none := by
  induction l, idx using hexDecodeAux.induct generalizing bytes with
  | case1 idx => intro c hc; exact absurd hc (List.not_mem_nil c)
  | case2 c idx => simp [hexDecodeAux] at h
  | case3 c1 c2 rest idx hv1 => simp [hexDecodeAux, hv1] at h
  | case4 c1 c2 rest idx hi hv1 hv2 => simp [hexDecodeAux, hv1, hv2] at h
  | case5 c1 c2 rest idx hi hv1 lo hv2 er hrec ih =>
    simp [hexDecodeAux, hv1, hv2, hrec] at h
  | case6 c1 c2 rest idx hi hv1 lo hv2 bs hrec ih =>
    intro c hc
    rcases List.mem_cons.mp hc with rfl | hc2
    · simp [hv1]
    · rcases List.mem_cons.mp hc2 with rfl | hc3
      · simp [hv2]
      · exact ih bs hrec c hc3

/-- Counterexample to C4 as stated: a 31-character hexadecimal string
fails, but with the hex-error kind (`InvalidHex(OddLength)`), not the
length-error kind (`InvalidLength`). -/
theorem key_parse_oddlen_counterexample :
    Key.from_str (List.replicate 31 '0')
      = Except.error (InvalidKeyError.invalidHex FromHexError.oddLength) ∧
    ¬ Key.from_str (List.replicate 31 '0')
      = Except.error InvalidKeyError.invalidLength := by
  refine ⟨rfl, fun h => ?_⟩
  have h0 : Key.from_str (List.replicate 31 '0')
      = Except.error (InvalidKeyError.invalidHex FromHexError.oddLength) := rfl
  have h2 := Except.error.inj (h0.symm.trans h)
  exact absurd h2 (by decide)

/-- C4 amended: the 32-zero hex string parses to the all-zero key; a
31- or 33-character string (odd length) fails with the hex-error kind
carrying `OddLength`, not the length-error kind; and a string containing a
non-hexadecimal character fails with the hex-error kind. -/
theorem key_parse_amended :
    Key.from_str (List.replicate 32 '0')
      = Except.ok ⟨List.replicate 16 0⟩ ∧
    (∀ s : List Char, s.length = 31 ∨ s.length = 33 →
      Key.from_str s
        = Except.error (InvalidKeyError.invalidHex FromHexError.oddLength)) ∧
    (∀ s : List Char, (∃ c ∈ s, hexVal c = none) →
      ∃ e : FromHexError,
        Key.from_str s = Except.error (InvalidKeyError.invalidHex e)) := by
  refine ⟨rfl, ?_, ?_⟩
  · intro s hs
    have hodd : s.length % 2 ≠ 0 := by rcases hs with h | h <;> omega
    simp [Key.from_str, hexDecode, hodd]
  · intro s hbad
    obtain ⟨c, hc, hval⟩ := hbad
    by_cases hodd : s.length % 2 ≠ 0
    · exact ⟨FromHexError.oddLength, by simp [Key.from_str, hexDecode, hodd]⟩
    · have heven : s.length % 2 = 0 := by omega
      cases hdec : hexDecodeAux s 0 with
      | error e =>
        exact ⟨e, by simp [Key.from_str, hexDecode, heven, hdec]⟩
      | ok bytes =>
        exact absurd hval (hexDecodeAux_ok_no_bad s 0 bytes hdec c hc)

/-- Witness for the amended C4 at concrete strings: a 31-character hex
string and a 32-character string containing `'g'`. -/
theorem key_parse_amended_witness :
    Key.from_str (List.replicate 31 'f')
      = Except.error (InvalidKeyError.invalidHex FromHexError.oddLength) ∧
    (∃ e : FromHexError, Key.from_str ('g' :: List.replicate 31 '0')
      = Except.error (InvalidKeyError.invalidHex e)) :=
  ⟨key_parse_amended.2.1 (List.replicate 31 'f') (Or.inl (by simp)),
    key_parse_amended.2.2 ('g' :: List.replicate 31 '0')
      ⟨'g', List.mem_cons_self _ _, by decide⟩⟩

/-- C5: flipping any single bit at any position of a buffer produced by a
successful `Crypto::encrypt` — in the ciphertext, tag or nonce region —
makes `Crypto::decrypt` under the same key fail with `CryptoError`. -/
theorem crypto_tamper_detection (c d : Crypto) (P : List Nat) (i b : Nat)
    (hcd : d.cipher = c.cipher) (hb : b < 8)
    (hi : i < ((c.encrypt P).2.1).length) :
    (d.decrypt (flipBit (c.encrypt P).2.1 i b)).1 = Except.error ⟨⟩ := by
  have hframe := encrypt_framed c P
  set n := genNonceBytes c.csprng with hn_def
  set ct := streamXor c.cipher n 0 P with hct_def
  set tg := tagBytes c.cipher n ct with htg_def
  have hctlen : ct.length = P.length := streamXor_length _ _ _ _
  have htglen : tg.length = 16 := tagBytes_length _ _ _
  have hnlen : n.length = 12 := genNonceBytes_length _
  rw [hframe] at hi ⊢
  have hilt : i < P.length + 28 := by
    rw [List.length_append, List.length_append, hctlen, htglen, hnlen] at hi
    omega
  have hm : (2 : Nat) ^ b ≠ 0 := (Nat.pos_pow_of_pos b (by norm_num)).ne'
  have hctg : (ct ++ tg).length = ct.length + 16 := by
    rw [List.length_append, htglen]
  unfold flipBit
  by_cases h1 : i < ct.length
  · -- bit flip lands in the ciphertext region
    have hgetD : ((ct ++ tg) ++ n).getD i 0 = ct.getD i 0 := by
      simp only [List.getD_eq_getElem?_getD]
      rw [List.getElem?_append_left (show i < (ct ++ tg).length by omega),
        List.getElem?_append_left h1]
    have hset : ((ct ++ tg) ++ n).set i (ct.getD i 0 ^^^ 2 ^ b)
        = (ct.set i (ct.getD i 0 ^^^ 2 ^ b) ++ tg) ++ n := by
      rw [List.set_append_left _ _ (show i < (ct ++ tg).length by omega),
        List.set_append_left _ _ h1]
    rw [hgetD, hset, decrypt_framed d _ tg n htglen hnlen,
      if_neg (by rw [hcd, htg_def]
                 exact tagBytes_set_ct_ne c.cipher n ct i (2 ^ b) h1 hm)]
  · by_cases h2 : i < ct.length + 16
    · -- bit flip lands in the tag region
      have hq : i - ct.length < tg.length := by omega
      have hgetD : ((ct ++ tg) ++ n).getD i 0 = tg.getD (i - ct.length) 0 := by
        simp only [List.getD_eq_getElem?_getD]
        rw [List.getElem?_append_left (show i < (ct ++ tg).length by omega),
          List.getElem?_append_right (show ct.length ≤ i by omega)]
      have hset : ((ct ++ tg) ++ n).set i (tg.getD (i - ct.length) 0 ^^^ 2 ^ b)
          = (ct ++ tg.set (i - ct.length) (tg.getD (i - ct.length) 0 ^^^ 2 ^ b))
            ++ n := by
        rw [List.set_append_left _ _ (show i < (ct ++ tg).length by omega),
          List.set_append_right _ _ (show ct.length ≤ i by omega)]
      have htg2len :
          (tg.set (i - ct.length) (tg.getD (i - ct.length) 0 ^^^ 2 ^ b)).length
            = 16 := by
        rw [List.length_set, htglen]
      rw [hgetD, hset, decrypt_framed d _ _ n htg2len hnlen, if_neg ?_]
      intro hEq
      exact set_xor_ne tg (i - ct.length) (2 ^ b) hq hm
        (hEq.symm.trans (by rw [hcd, ← htg_def]))
    · -- bit flip lands in the nonce region
      have hq : i - (ct.length + 16) < 12 := by omega
      have hgetD : ((ct ++ tg) ++ n).getD i 0
          = n.getD (i - (ct.length + 16)) 0 := by
        simp only [List.getD_eq_getElem?_getD]
        rw [List.getElem?_append_right (show (ct ++ tg).length ≤ i by omega),
          hctg]
      have hset : ((ct ++ tg) ++ n).set i
            (n.getD (i - (ct.length + 16)) 0 ^^^ 2 ^ b)
          = (ct ++ tg) ++ n.set (i - (ct.length + 16))
              (n.getD (i - (ct.length + 16)) 0 ^^^ 2 ^ b) := by
        rw [List.set_append_right _ _ (show (ct ++ tg).length ≤ i by omega),
          hctg]
      have hn2len : (n.set (i - (ct.length + 16))
            (n.getD (i - (ct.length + 16)) 0 ^^^ 2 ^ b)).length = 12 := by
        rw [List.length_set, hnlen]
      rw [hgetD, hset, decrypt_framed d _ _ _ htglen hn2len, if_neg ?_]
      rw [hcd, htg_def]
      exact tagBytes_set_nonce_ne c.cipher n ct (i - (ct.length + 16)) (2 ^ b)
        (by omega) (by omega) hm

/-- Witness for C5: flipping bit 0 of byte 0 of a concrete encrypted
buffer makes decryption fail. -/
theorem crypto_tamper_detection_witness :
    (0 : Nat) < ((Crypto.encrypt ⟨List.replicate 16 0, 3⟩ [1, 2]).2.1).length ∧
    (Crypto.decrypt ⟨List.replicate 16 0, 9⟩
        (flipBit (Crypto.encrypt ⟨List.replicate 16 0, 3⟩ [1, 2]).2.1 0 0)).1
      = Except.error ⟨⟩ :=
  ⟨by decide,
    crypto_tamper_detection ⟨List.replicate 16 0, 3⟩ ⟨List.replicate 16 0, 9⟩
      [1, 2] 0 0 rfl (by decide) (by decide)⟩

end Twopoint
